import Mathlib

/-!
Shallow embedding of the job-coordination core of `src/main.py`
(a queue-based downloader front-end), together with proofs about it.

Python strings are modelled as Lean `String`s (lists of characters);
Python `set` objects as `Finset String`; Python `None`/absent dict keys
as `Option`; a raised exception from the external extraction engine as
`Except.error`.  Qt signal emissions are modelled as elements of an
event-trace list, in emission order.
-/

namespace Gampa

/-! ## String utilities (src/main.py, "Utilities" section) -/

/-- Characters stripped by Python `str.strip()` (ASCII whitespace). -/
def isPySpace (c : Char) : Bool :=
  c = ' ' || c = '\t' || c = '\n' || c = '\r' || c = '\x0b' || c = '\x0c'

/-- Right-strip: drop trailing characters satisfying `p` (Python `str.rstrip`). -/
def rstripBy (p : Char → Bool) (cs : List Char) : List Char :=
  (cs.reverse.dropWhile p).reverse

/-- Python `s.strip()` on the character list. -/
def pyStripData (cs : List Char) : List Char :=
  rstripBy isPySpace (cs.dropWhile isPySpace)

/-- Python `s.strip()`. -/
def pyStrip (s : String) : String := ⟨pyStripData s.data⟩

/-- Source `normalize_url(url)`: `(url or "").strip()`. -/
def normalize_url (s : String) : String := pyStrip s

/-- Python `s.rstrip("/")`. -/
def rstripSlash (s : String) : String := ⟨rstripBy (fun c => c = '/') s.data⟩

/-- Python `s.endswith(suffix)`. -/
def pyEndsWith (s sfx : String) : Bool := sfx.data.isSuffixOf s.data

/-- Python `sub in s` (substring containment). -/
def pyContains (s sub : String) : Bool := decide (sub.data <:+: s.data)

/-- Python `s.lower()` (ASCII model). -/
def strLower (s : String) : String := ⟨s.data.map Char.toLower⟩

/-- Source `TAB_SUFFIXES` from src/main.py. -/
def TAB_SUFFIXES : List String :=
  ["videos", "streams", "live", "shorts", "featured", "playlists"]

/-- The channel-root marker substrings tested by `normalize_channel_to_videos`. -/
def channelMarkers : List String :=
  ["youtube.com/@", "/channel/", "/c/", "/user/"]

/-- Source `any(base.endswith("/" + t) for t in TAB_SUFFIXES)`. -/
def endsWithTab (base : String) : Bool :=
  TAB_SUFFIXES.any (fun t => pyEndsWith base ("/" ++ t))

/-- Source `("youtube.com/@" in base) or ("/channel/" in base) or ("/c/" in base) or ("/user/" in base)`. -/
def isChannelish (base : String) : Bool :=
  channelMarkers.any (fun m => pyContains base m)

/-- Source `normalize_channel_to_videos(url)` from src/main.py. -/
def normalize_channel_to_videos (url : String) : String :=
  let u := normalize_url url
  if u = "" then u
  else
    let base := rstripSlash u
    if endsWithTab base then u
    else if isChannelish base then base ++ "/videos"
    else u

/-- Source `safe_date_yyyymmdd(s)` from src/main.py: strip separators, require 8 digits. -/
def safe_date_yyyymmdd (s : String) : String :=
  let t := pyStrip s
  if t = "" then ""
  else
    let t2 : String := ⟨t.data.filter (fun c => ¬ (c = '-' ∨ c = '/' ∨ c = '.'))⟩
    if t2.data.length = 8 ∧ t2.data.all Char.isDigit then t2 else ""

/-! ## Resolved-entry model and `looks_like_tab_entry` -/

/-- A resolved flat-extraction entry (a Python dict).  The fields model
`e.get("url")`, `e.get("webpage_url")` and `e.get("title")`; a missing or
`None`-valued key is modelled as the empty string, matching Python
truthiness of the `or` chains in the source. -/
structure Entry where
  url : String := ""
  webpage_url : String := ""
  title : String := ""
deriving DecidableEq, Repr

/-- Source `e.get("url") or e.get("webpage_url") or ""`. -/
def entryGetUrl (e : Entry) : String :=
  if e.url = "" then e.webpage_url else e.url

/-- Source `looks_like_tab_entry(e)` from src/main.py. -/
def looks_like_tab_entry (e : Entry) : Bool :=
  let u := strLower (entryGetUrl e)
  if u = "" then false
  else TAB_SUFFIXES.any (fun t => pyEndsWith (rstripSlash u) ("/" ++ t))

/-! ## Expansion pipeline (`ExpandWorker._expand`) -/

/-- Source `QueueItem` dataclass from src/main.py. -/
structure QueueItem where
  url : String
  title : String := ""
  status : String := "Queued"
deriving DecidableEq, Repr

/-- Result of `_extract_flat` when it does not raise: either a falsy value
(`None`), or a dict with an optional `"title"` and an optional `"entries"`
list.  A present-but-falsy `"entries"` value is modelled as `Option.none`,
which the source treats identically to a missing key.  Entries that are
themselves falsy are the `Option.none` elements of the list. -/
inductive PyInfo where
  | none
  | dict (title : Option String) (entries : Option (List (Option Entry)))
deriving DecidableEq, Repr

/-- Source `entries = [e for e in info["entries"] if e]` (empty when the key is
missing, falsy, or `info` is not a dict). -/
def surviving : PyInfo → List Entry
  | PyInfo.dict _ (Option.some raw) => raw.filterMap id
  | _ => []

/-- Source `title = info.get("title") ...; title = title or url`. -/
def fallbackTitle (info : PyInfo) (url : String) : String :=
  match info with
  | PyInfo.dict (Option.some t) _ => if t = "" then url else t
  | _ => url

/-- Item construction loop of `_expand`: one `QueueItem` per entry with a
resolvable URL (`u = e.get("url") or e.get("webpage_url")`); entries without
a URL are dropped silently; `title = t or u`. -/
def collectItems (entries : List Entry) : List QueueItem :=
  entries.filterMap (fun e =>
    let u := entryGetUrl e
    if u = "" then Option.none
    else Option.some ⟨u, if e.title = "" then u else e.title, "Queued"⟩)

/-- The tab-ambiguity correction of `_expand` (src/main.py lines 493-508):
given the surviving entry list of the first resolution, decide which entry
list to keep and how many corrective re-resolutions were attempted.  The
second component instruments the number of `_extract_flat` retry calls. -/
def retryDecision (resolve : String → Except String PyInfo) (url : String)
    (entries0 : List Entry) : List Entry × Nat :=
  if entries0 ≠ [] ∧ entries0.all looks_like_tab_entry then
    let retry_url := normalize_channel_to_videos url
    if retry_url ≠ url then
      match resolve retry_url with
      | Except.error _ => (entries0, 1)
      | Except.ok info2 =>
        let entries2 := surviving info2
        if entries2 ≠ [] ∧ ¬ entries2.all looks_like_tab_entry = true then (entries2, 1)
        else (entries0, 1)
    else (entries0, 0)
  else (entries0, 0)

/-- What `_expand` reports through `finished_one` (ok flag, message, items),
plus the retry-count instrumentation. -/
structure ExpandOutcome where
  ok : Bool
  msg : String
  items : List QueueItem
  retries : Nat
deriving DecidableEq, Repr

/-- Source `ExpandWorker._expand(url)` with the external `_extract_flat` abstracted
as `resolve` (the same resolver serves the original reference and the
retried content-listing variant).  The periodic `count` signal is not part
of any claim and is not modelled. -/
def expand (resolve : String → Except String PyInfo) (url : String) : ExpandOutcome :=
  match resolve url with
  | Except.error e => ⟨false, "분석 실패: " ++ e, [], 0⟩
  | Except.ok PyInfo.none => ⟨false, "정보를 가져오지 못했습니다.", [], 0⟩
  | Except.ok info =>
    let dec := retryDecision resolve url (surviving info)
    let entries1 := dec.1
    if entries1 ≠ [] then
      ⟨true, "추가 완료(" ++ toString (collectItems entries1).length ++ "개)",
        collectItems entries1, dec.2⟩
    else
      ⟨true, "추가 완료(1개)", [⟨url, fallbackTitle info url, "Queued"⟩], dec.2⟩

/-! ## Queue Store (`MainWindow.queue` / `MainWindow.url_set`) -/

/-- The coordinator's queue state: `self.queue` and `self.url_set`. -/
structure Store where
  queue : List QueueItem
  urlSet : Finset String
deriving DecidableEq

def emptyStore : Store := ⟨[], ∅⟩

/-- One iteration of the merge loop in `MainWindow.on_expand_finished_one`
(src/main.py lines 1311-1319): normalize the URL, skip empty or known URLs,
otherwise append and record.  This is the single dedup gate; the bulk
TXT-file load funnels through the same path. -/
def mergeOne (st : Store) (it : QueueItem) : Store :=
  let u := normalize_url it.url
  let t := if it.title = "" then u else it.title
  if u = "" ∨ u ∈ st.urlSet then st
  else ⟨st.queue ++ [⟨u, t, "Queued"⟩], insert u st.urlSet⟩

/-- The whole merge loop over a `collected` list. -/
def mergeAll (st : Store) (l : List QueueItem) : Store := l.foldl mergeOne st

/-- One iteration of the removal loop in `MainWindow.on_remove_checked`
(src/main.py lines 1362-1365): `url_set.discard(queue[r].url); queue.pop(r)`,
guarded by `0 <= r < len(queue)`. -/
def removeAt (st : Store) (r : Nat) : Store :=
  if h : r < st.queue.length then
    ⟨st.queue.eraseIdx r, st.urlSet.erase (st.queue.get ⟨r, h⟩).url⟩
  else st

/-- Source `for r in reversed(rows): ...` where `rows` is ascending. -/
def removeRows (st : Store) (rows : List Nat) : Store :=
  rows.reverse.foldl removeAt st

/-- Store consistency: the URL set is exactly the set of queued URLs, and no
two queued items share a URL. -/
def StoreInv (st : Store) : Prop :=
  st.urlSet = (st.queue.map QueueItem.url).toFinset
    ∧ (st.queue.map QueueItem.url).Nodup

instance (st : Store) : Decidable (StoreInv st) := by
  unfold StoreInv; infer_instance

/-! ## Download orchestrator (`DownloadWorker`) -/

/-- Signal emissions of `DownloadWorker`, in emission order. -/
inductive Ev where
  | log (s : String)
  | currentTitle (s : String)
  | fileProgress (n : Int)
  | totalProgress (n : Int)
  | fileEta (s : String)
  | totalEta (s : String)
  | finished (ok : Bool) (msg : String)
deriving DecidableEq, Repr

/-- Source `strip_ansi`: remove every match of the regex `\x1b\[[0-9;]*m`. -/
def ansiBody (c : Char) : Bool := ('0' ≤ c ∧ c ≤ '9') ∨ c = ';'

/-- If `cs` (the characters after an ESC) starts with `[ [0-9;]* m`, return
the remainder after the match. -/
def ansiMatch : List Char → Option (List Char)
  | '[' :: rest =>
    match rest.dropWhile ansiBody with
    | 'm' :: rest2 => Option.some rest2
    | _ => Option.none
  | _ => Option.none

def stripAnsiData : List Char → List Char
  | [] => []
  | c :: rest =>
    if c = '\x1b' then
      match hm : ansiMatch rest with
      | Option.some rest2 => stripAnsiData rest2
      | Option.none => c :: stripAnsiData rest
    else c :: stripAnsiData rest
termination_by l => l.length
decreasing_by
  · refine Nat.lt_succ_of_lt ?_
    unfold ansiMatch at hm
    split at hm
    · rename_i rs
      have hlen : (List.dropWhile ansiBody rs).length ≤ rs.length :=
        (List.dropWhile_suffix ansiBody).length_le
      split at hm
      · rename_i rs2 hdw
        simp only [Option.some.injEq] at hm
        subst hm
        rw [hdw] at hlen
        simp only [List.length_cons] at hlen ⊢
        omega
      · exact absurd hm (by simp)
    · exact absurd hm (by simp)
  · simp
  · simp

/-- Source `strip_ansi(s)` from src/main.py. -/
def stripAnsi (s : String) : String := ⟨stripAnsiData s.data⟩

/-- Source `strip_ansi(raw).replace("%", "").strip()` — the percent-string cleanup
of the progress hook. -/
def cleanPercent (raw : String) : String :=
  pyStrip ⟨(stripAnsi raw).data.filter (fun c => ¬ c = '%')⟩

/-- Source `strip_ansi(raw).strip()` — the ETA-string cleanup of the progress hook. -/
def cleanEta (raw : String) : String := pyStrip (stripAnsi raw)

/-- Two-digit zero padding. -/
def pad2 (n : Nat) : String := if n < 10 then "0" ++ toString n else toString n

/-- Source `hms(seconds)`: `str(timedelta(seconds=max(seconds,0)))`. -/
def hms (seconds : Int) : String :=
  let s : Nat := if seconds < 0 then 0 else seconds.toNat
  let days := s / 86400
  let rest := s % 86400
  let core := toString (rest / 3600) ++ ":" ++ pad2 (rest % 3600 / 60) ++ ":" ++ pad2 (rest % 60)
  if days = 0 then core
  else if days = 1 then "1 day, " ++ core
  else toString days ++ " days, " ++ core

/-- Python `int(q)` on a float value, modelled over exact rationals:
truncation toward zero. -/
def pyIntTrunc (q : ℚ) : Int := if 0 ≤ q then Int.floor q else -Int.floor (-q)

/-- One invocation of the progress hook: the payload dict (`d.get("status")`,
`d.get("_percent_str", "0%")`, `d.get("_eta_str", "--:--")`), the value of
`self._stop` at that moment, and `time.time() - self._start`. -/
structure HookIn where
  status : String := ""
  percentStr : Option String := Option.none
  etaStr : Option String := Option.none
  stopSeen : Bool := false
  elapsed : ℚ := 0

/-- The `hook` closure inside `DownloadWorker.run` (src/main.py lines
587-606).  `parse` abstracts Python `int(float(p_str))`, which raises
(modelled by `Option.none`) when the cleaned string does not parse as a
number; `done` is `self._done` and `total` is `self._total` at call time.
Float arithmetic for the aggregate-ETA estimate is idealized as exact
rational arithmetic. -/
def hookRun (parse : String → Option Int) (done total : Nat) (inp : HookIn) : List Ev :=
  if inp.stopSeen then []
  else if inp.status = "downloading" then
    let p_str := cleanPercent (inp.percentStr.getD "0%")
    let eta_str := cleanEta (inp.etaStr.getD "--:--")
    let progressEvs := match parse p_str with
      | Option.some n => [Ev.fileProgress n]
      | Option.none => []
    let totalEtaEv :=
      if done > 0 then
        [Ev.totalEta (hms (pyIntTrunc (inp.elapsed / done * (total - done : Nat))))]
      else [Ev.totalEta "계산 중..."]
    progressEvs ++ [Ev.fileEta eta_str] ++ totalEtaEv
  else if inp.status = "finished" then [Ev.log "병합 중..."]
  else []

/-- Source `item.title or item.url`. -/
def itemTitle (item : QueueItem) : String :=
  if item.title = "" then item.url else item.title

/-- Result of a `DownloadWorker.run`: the signal trace and the list of URLs
passed to `ydl.download`, in call order. -/
structure RunResult where
  trace : List Ev
  calls : List String
deriving DecidableEq, Repr

/-- The per-item events of one loop iteration of `DownloadWorker.run`
(src/main.py lines 651-676): current-title and log emissions, per-file
progress reset, the hook emissions produced while `ydl.download` runs,
the failure log if the download raised (`dlFail idx = some e` models the
exception text), and the aggregate-progress update
`int((self._done / self._total) * 100)` — a float truncation, idealized
here as the exact floor `done * 100 / total`. -/
def itemBlock (parse : String → Option Int) (total : Nat)
    (dlFail : Nat → Option String) (hooks : Nat → List HookIn)
    (idx : Nat) (item : QueueItem) : List Ev :=
  [Ev.currentTitle (itemTitle item),
   Ev.log ("[" ++ toString (idx + 1) ++ "/" ++ toString total ++ "] " ++ itemTitle item),
   Ev.fileProgress 0, Ev.fileEta "--:--"]
  ++ ((hooks idx).map (hookRun parse idx total)).flatten
  ++ (match dlFail idx with
      | Option.some e => [Ev.log ("실패: " ++ itemTitle item ++ " (" ++ e ++ ")")]
      | Option.none => [])
  ++ [Ev.totalProgress (Int.ofNat ((idx + 1) * 100 / total))]

/-- The `for idx, item in enumerate(self.items)` loop of
`DownloadWorker.run`, followed by the normal-completion epilogue
(lines 678-681).  `stopAt idx` is the value of `self._stop` read at the top
of iteration `idx`; on observing it the loop emits the user-stop finish and
returns. -/
def runAux (parse : String → Option Int) (total : Nat) (stopAt : Nat → Bool)
    (dlFail : Nat → Option String) (hooks : Nat → List HookIn) :
    Nat → List QueueItem → RunResult
  | _, [] =>
    ⟨[Ev.fileProgress 100, Ev.totalProgress 100, Ev.totalEta "00:00:00",
      Ev.finished true "완료"], []⟩
  | idx, item :: rest =>
    if stopAt idx then ⟨[Ev.finished false "사용자 중지"], []⟩
    else
      let tail := runAux parse total stopAt dlFail hooks (idx + 1) rest
      ⟨itemBlock parse total dlFail hooks idx item ++ tail.trace,
        item.url :: tail.calls⟩

/-- Source `DownloadWorker.run` (src/main.py lines 575-681): empty-queue guard,
then the sequential per-item loop.  Log-file writes are side effects outside
the signal trace and are not modelled. -/
def runWorker (parse : String → Option Int) (items : List QueueItem)
    (stopAt : Nat → Bool) (dlFail : Nat → Option String)
    (hooks : Nat → List HookIn) : RunResult :=
  if items = [] then ⟨[Ev.finished false "대기열이 비어있습니다."], []⟩
  else runAux parse items.length stopAt dlFail hooks 0 items

/-- The per-item blocks of an uncancelled run prefix, used to describe
`runAux`'s trace. -/
def blocksOf (parse : String → Option Int) (total : Nat)
    (dlFail : Nat → Option String) (hooks : Nat → List HookIn) :
    Nat → List QueueItem → List Ev
  | _, [] => []
  | idx, item :: rest =>
    itemBlock parse total dlFail hooks idx item
      ++ blocksOf parse total dlFail hooks (idx + 1) rest

/-- The values carried by `total_progress` emissions of a trace. -/
def tpVals (t : List Ev) : List Int :=
  t.filterMap (fun e => match e with
    | Ev.totalProgress n => Option.some n
    | _ => Option.none)

/-! ## Filter evaluator (`MainWindow.on_start`, src/main.py lines 1435-1451) -/

/-- The filter settings consulted at dispatch time.  The date fields are
carried to show they are not consulted by the local predicate (they are
passed to the engine as run options instead). -/
structure FilterSpec where
  excludeShorts : Bool := false
  dateAfter : String := ""
  dateBefore : String := ""
  includeKw : String := ""
  excludeKw : String := ""

/-- The per-item exclusion test of the dispatch loop in `on_start`. -/
def excludedByFilter (fs : FilterSpec) (qi : QueueItem) : Bool :=
  (fs.excludeShorts && pyContains (strLower qi.url) "/shorts/")
  || (¬ fs.includeKw = "" && ¬ pyContains (strLower qi.title) (strLower fs.includeKw) = true)
  || (¬ fs.excludeKw = "" && pyContains (strLower qi.title) (strLower fs.excludeKw))

/-- The dispatched list: checked items surviving the filter, in order. -/
def dispatchItems (fs : FilterSpec) (selected : List QueueItem) : List QueueItem :=
  selected.filter (fun qi => ¬ excludedByFilter fs qi = true)

/-! ## Specification-side predicates (formalizing the spec's wording,
to be compared with the code-derived definitions above) -/

/-- Spec wording: the reference, with trailing slashes removed, ends in
`/` followed by one of the listing-suffix tokens. -/
def HasListingSuffix (v : String) : Prop :=
  ∃ t ∈ TAB_SUFFIXES, ("/" ++ t).data <:+ (rstripSlash v).data

/-- Spec wording: the reference matches a channel-root shape, i.e. contains
one of the channel markers as a substring (of its slash-trimmed form). -/
def IsChannelRootShape (v : String) : Prop :=
  ∃ m ∈ channelMarkers, m.data <:+: (rstripSlash v).data

/-- Case-insensitive substring containment (spec wording for the filter). -/
def CiContains (s sub : String) : Prop :=
  (strLower sub).data <:+: (strLower s).data

/-- The filter exclusion condition as the spec words it: shorts marker in
the URL, or missing include-keyword, or present exclude-keyword. -/
def SpecExcluded (fs : FilterSpec) (qi : QueueItem) : Prop :=
  (fs.excludeShorts = true ∧ CiContains qi.url "/shorts/")
  ∨ (fs.includeKw ≠ "" ∧ ¬ CiContains qi.title fs.includeKw)
  ∨ (fs.excludeKw ≠ "" ∧ CiContains qi.title fs.excludeKw)

instance (v : String) : Decidable (HasListingSuffix v) := by
  unfold HasListingSuffix
  infer_instance

instance (v : String) : Decidable (IsChannelRootShape v) := by
  unfold IsChannelRootShape
  infer_instance

instance (s sub : String) : Decidable (CiContains s sub) := by
  unfold CiContains
  infer_instance

instance (fs : FilterSpec) (qi : QueueItem) : Decidable (SpecExcluded fs qi) := by
  unfold SpecExcluded
  infer_instance

/-! ## Concrete fixtures used by the witness theorems -/

def parseFail : String → Option Int := fun _ => Option.none

def noStop : Nat → Bool := fun _ => false

def noFail : Nat → Option String := fun _ => Option.none

def noHooks : Nat → List HookIn := fun _ => []

/-- Stop flag observed from the second iteration on. -/
def stopFrom1 : Nat → Bool := fun i => decide (1 ≤ i)

def itemsPair : List QueueItem := [⟨"u1", "t1", "Queued"⟩, ⟨"u2", "t2", "Queued"⟩]

def itemsTriple : List QueueItem :=
  [⟨"u1", "t1", "Queued"⟩, ⟨"u2", "t2", "Queued"⟩, ⟨"u3", "t3", "Queued"⟩]

def failBoom : Nat → Option String := fun _ => Option.some "boom"

/-- A tab-only listing entry (its URL ends in a listing suffix). -/
def tabEntryX : Entry := ⟨"https://youtube.com/@h/videos", "", "Videos"⟩

/-- A content entry. -/
def vidEntryX : Entry := ⟨"https://y/watch?v=1", "", "Vid1"⟩

def urlX : String := "https://youtube.com/@h"

/-- Resolver returning only a tab entry for the bare handle URL, and a
content entry for every other reference (in particular the `/videos`
variant). -/
def resolveX : String → Except String PyInfo := fun u =>
  if u = urlX then Except.ok (PyInfo.dict Option.none (Option.some [Option.some tabEntryX]))
  else Except.ok (PyInfo.dict Option.none (Option.some [Option.some vidEntryX]))

def hookInX : HookIn := ⟨"downloading", Option.some "abc", Option.some "01:23", false, 0⟩

def specAB : FilterSpec := ⟨true, "", "", "", ""⟩

def itemA : QueueItem := ⟨"https://x/watch?v=a", "A", "Queued"⟩

def itemB : QueueItem := ⟨"https://x/shorts/b", "B", "Queued"⟩

def itemC : QueueItem := ⟨"https://x/watch?v=c", "C", "Queued"⟩

def storeSample : Store :=
  mergeAll emptyStore [⟨"u1", "a", ""⟩, ⟨"u1", "b", ""⟩, ⟨"u2", "", ""⟩]

/-! ## General list lemmas -/

theorem dropWhile_head_not {α : Type} {p : α → Bool} :
    ∀ {l : List α} {a : α} {t : List α}, List.dropWhile p l = a :: t → p a = false := by
  intro l
  induction l with
  | nil => intro a t h; simp [List.dropWhile] at h
  | cons b l ih =>
    intro a t h
    rw [List.dropWhile_cons] at h
    split at h
    · exact ih h
    · rename_i hb
      cases h
      simpa using hb

theorem dropWhile_idem {α : Type} {p : α → Bool} (l : List α) :
    List.dropWhile p (List.dropWhile p l) = List.dropWhile p l := by
  rcases h : List.dropWhile p l with _ | ⟨a, t⟩
  · simp
  · have ha := dropWhile_head_not h
    rw [List.dropWhile_cons, ha]
    simp

theorem rstripBy_idem {p : Char → Bool} (l : List Char) :
    rstripBy p (rstripBy p l) = rstripBy p l := by
  unfold rstripBy
  rw [List.reverse_reverse, dropWhile_idem]

theorem rstripBy_prefix {p : Char → Bool} (l : List Char) : rstripBy p l <+: l := by
  obtain ⟨t, ht⟩ := List.dropWhile_suffix p (l := l.reverse)
  refine ⟨t.reverse, ?_⟩
  unfold rstripBy
  rw [← List.reverse_append, ht, List.reverse_reverse]

theorem rstripBy_concat_of_false {p : Char → Bool} {c : Char} (l : List Char)
    (h : p c = false) : rstripBy p (l ++ [c]) = l ++ [c] := by
  unfold rstripBy
  rw [List.reverse_append]
  simp [List.dropWhile_cons, h]

theorem pyStripData_idem (cs : List Char) : pyStripData (pyStripData cs) = pyStripData cs := by
  unfold pyStripData
  rcases hu : rstripBy isPySpace (List.dropWhile isPySpace cs) with _ | ⟨a, t⟩
  · simp [rstripBy, List.dropWhile]
  · obtain ⟨t2, ht2⟩ := rstripBy_prefix (p := isPySpace) (List.dropWhile isPySpace cs)
    rw [hu] at ht2
    have ha : isPySpace a = false := dropWhile_head_not (l := cs) (by rw [← ht2]; rfl)
    rw [List.dropWhile_cons, ha]
    simp only [Bool.false_eq_true, if_false]
    rw [← hu, rstripBy_idem]

theorem pyStripData_head_not {cs : List Char} {a : Char} {t : List Char}
    (h : pyStripData cs = a :: t) : isPySpace a = false := by
  unfold pyStripData at h
  obtain ⟨t2, ht2⟩ := rstripBy_prefix (p := isPySpace) (List.dropWhile isPySpace cs)
  rw [h] at ht2
  exact dropWhile_head_not (l := cs) (by rw [← ht2]; rfl)

/-! ## Properties of the URL normalizer -/

/-- Lemma: `normalize_channel_to_videos` written out without `let`s. -/
theorem nctv_eq (s : String) :
    normalize_channel_to_videos s =
      if normalize_url s = "" then normalize_url s
      else if endsWithTab (rstripSlash (normalize_url s)) then normalize_url s
      else if isChannelish (rstripSlash (normalize_url s)) then
        rstripSlash (normalize_url s) ++ "/videos"
      else normalize_url s := rfl

theorem normalize_url_idem (s : String) :
    normalize_url (normalize_url s) = normalize_url s := by
  unfold normalize_url pyStrip
  exact congrArg String.mk (pyStripData_idem s.data)

theorem data_append_videos (b : String) :
    (b ++ "/videos").data = (b.data ++ ['/', 'v', 'i', 'd', 'e', 'o']) ++ ['s'] := by
  rw [String.data_append]
  simp

theorem rstripSlash_append_videos (b : String) :
    rstripSlash (b ++ "/videos") = b ++ "/videos" := by
  unfold rstripSlash
  rw [data_append_videos, rstripBy_concat_of_false _ (by decide), ← data_append_videos]

theorem endsWithTab_append_videos (b : String) :
    endsWithTab (b ++ "/videos") = true := by
  unfold endsWithTab
  rw [List.any_eq_true]
  refine ⟨"videos", by simp [TAB_SUFFIXES], ?_⟩
  unfold pyEndsWith
  rw [List.isSuffixOf_iff_suffix, String.data_append]
  exact List.suffix_append b.data "/videos".data

theorem append_videos_ne_empty (b : String) : b ++ "/videos" ≠ "" := by
  intro h
  have := congrArg String.data h
  rw [data_append_videos] at this
  simp at this

theorem isChannelish_ne_empty {b : String} (h : isChannelish b = true) : b.data ≠ [] := by
  intro hb
  have hbe : b = "" := by
    cases b
    simp only at hb
    rw [hb]
  rw [hbe] at h
  exact absurd h (by decide)

/-- For a nonempty channel-shaped reference, stripping the rewritten
`base ++ "/videos"` is the identity: its first character is the first
character of the stripped original (hence not whitespace) and it ends in
`'s'`. -/
theorem normalize_url_append_videos (s : String)
    (hch : isChannelish (rstripSlash (normalize_url s)) = true) :
    normalize_url (rstripSlash (normalize_url s) ++ "/videos")
      = rstripSlash (normalize_url s) ++ "/videos" := by
  set b := rstripSlash (normalize_url s) with hb
  rcases hbd : b.data with _ | ⟨a, t⟩
  · exact absurd hbd (isChannelish_ne_empty hch)
  · have hpre : b.data <+: (normalize_url s).data := by
      rw [hb]
      unfold rstripSlash
      exact rstripBy_prefix _
    obtain ⟨t2, ht2⟩ := hpre
    rw [hbd] at ht2
    have hps : pyStripData s.data = a :: (t ++ t2) := by
      have hdata : (normalize_url s).data = pyStripData s.data := rfl
      rw [← hdata, ← ht2]
      rfl
    have ha : isPySpace a = false := pyStripData_head_not hps
    unfold normalize_url pyStrip
    refine congrArg String.mk ?_
    unfold pyStripData
    have hcons : (b ++ "/videos").data = a :: (t ++ "/videos".data) := by
      rw [String.data_append, hbd]
      rfl
    rw [hcons, List.dropWhile_cons, ha]
    simp only [Bool.false_eq_true, if_false]
    have hsplit : a :: (t ++ "/videos".data) = (a :: (t ++ ['/', 'v', 'i', 'd', 'e', 'o'])) ++ ['s'] := by
      show a :: (t ++ (['/', 'v', 'i', 'd', 'e', 'o', 's'] : List Char)) = _
      simp
    rw [hsplit, rstripBy_concat_of_false _ (by decide)]
    show a :: (t ++ ['/', 'v', 'i', 'd', 'e', 'o']) ++ ['s']
      = b.data ++ (['/', 'v', 'i', 'd', 'e', 'o', 's'] : List Char)
    rw [hbd]
    simp

theorem endsWithTab_iff (v : String) :
    endsWithTab (rstripSlash v) = true ↔ HasListingSuffix v := by
  unfold endsWithTab HasListingSuffix pyEndsWith
  rw [List.any_eq_true]
  constructor
  · rintro ⟨t, ht, hsfx⟩
    exact ⟨t, ht, List.isSuffixOf_iff_suffix.mp hsfx⟩
  · rintro ⟨t, ht, hsfx⟩
    exact ⟨t, ht, List.isSuffixOf_iff_suffix.mpr hsfx⟩

theorem isChannelish_iff (v : String) :
    isChannelish (rstripSlash v) = true ↔ IsChannelRootShape v := by
  unfold isChannelish IsChannelRootShape pyContains
  rw [List.any_eq_true]
  constructor
  · rintro ⟨m, hm, hin⟩
    exact ⟨m, hm, of_decide_eq_true hin⟩
  · rintro ⟨m, hm, hin⟩
    exact ⟨m, hm, decide_eq_true hin⟩

/-- Claim C9: `toContentListing` (implemented as
`normalize_channel_to_videos`) is idempotent — applying it twice yields the
same result as applying it once, for every input string. -/
theorem c9_idempotent (s : String) :
    normalize_channel_to_videos (normalize_channel_to_videos s)
      = normalize_channel_to_videos s := by
  by_cases h1 : normalize_url s = ""
  · have hres : normalize_channel_to_videos s = normalize_url s := by
      rw [nctv_eq, if_pos h1]
    rw [hres, h1]
    rfl
  · by_cases h2 : endsWithTab (rstripSlash (normalize_url s)) = true
    · have hres : normalize_channel_to_videos s = normalize_url s := by
        rw [nctv_eq, if_neg h1, if_pos h2]
      rw [hres, nctv_eq, normalize_url_idem, if_neg h1, if_pos h2]
    · by_cases h3 : isChannelish (rstripSlash (normalize_url s)) = true
      · have hres : normalize_channel_to_videos s
            = rstripSlash (normalize_url s) ++ "/videos" := by
          rw [nctv_eq, if_neg h1, if_neg h2, if_pos h3]
        rw [hres, nctv_eq, normalize_url_append_videos s h3,
          if_neg (append_videos_ne_empty _), rstripSlash_append_videos,
          if_pos (endsWithTab_append_videos _)]
      · have hres : normalize_channel_to_videos s = normalize_url s := by
          rw [nctv_eq, if_neg h1, if_neg h2, if_neg h3]
        rw [hres, nctv_eq, normalize_url_idem, if_neg h1, if_neg h2, if_neg h3]

/-- Claim C8, counterexample: `"https://youtube.com/@xvideos"` already ends
in the listing-suffix token `"videos"`, yet `normalize_channel_to_videos`
does not return it unchanged — it appends `"/videos"`.  The code's check is
for a `/`-preceded token on the slash-trimmed reference, not for a bare
token suffix. -/
theorem c8_counterexample :
    pyEndsWith "https://youtube.com/@xvideos" "videos" = true
    ∧ normalize_channel_to_videos "https://youtube.com/@xvideos"
        = "https://youtube.com/@xvideos/videos"
    ∧ normalize_channel_to_videos "https://youtube.com/@xvideos"
        ≠ "https://youtube.com/@xvideos" := by
  refine ⟨by decide, by decide, by decide⟩

/-- Claim C8 (amended): with `u` the whitespace-trimmed input, the function
returns `u` unchanged when the slash-trimmed `u` ends in `/` followed by a
listing-suffix token; otherwise, when the slash-trimmed `u` contains a
channel-root marker substring, it returns the slash-trimmed `u` with
`"/videos"` appended; otherwise it returns `u` unchanged.  Purely
syntactic. -/
theorem c8_amended (s : String) :
    (HasListingSuffix (normalize_url s) →
      normalize_channel_to_videos s = normalize_url s)
    ∧ (normalize_url s ≠ "" → ¬ HasListingSuffix (normalize_url s) →
        IsChannelRootShape (normalize_url s) →
        normalize_channel_to_videos s = rstripSlash (normalize_url s) ++ "/videos")
    ∧ (¬ IsChannelRootShape (normalize_url s) →
        normalize_channel_to_videos s = normalize_url s) := by
  refine ⟨?_, ?_, ?_⟩
  · intro hls
    by_cases h1 : normalize_url s = ""
    · rw [nctv_eq, if_pos h1]
    · rw [nctv_eq, if_neg h1, if_pos ((endsWithTab_iff _).mpr hls)]
  · intro h1 hls hch
    rw [nctv_eq, if_neg h1,
      if_neg (fun hc => hls ((endsWithTab_iff _).mp hc)),
      if_pos ((isChannelish_iff _).mpr hch)]
  · intro hch
    by_cases h1 : normalize_url s = ""
    · rw [nctv_eq, if_pos h1]
    · by_cases h2 : endsWithTab (rstripSlash (normalize_url s)) = true
      · rw [nctv_eq, if_neg h1, if_pos h2]
      · rw [nctv_eq, if_neg h1, if_neg h2,
          if_neg (fun hc => hch ((isChannelish_iff _).mp hc))]

/-- Witness for the amended C8 at concrete inputs: a reference whose
slash-trimmed form ends in `/videos` is returned unchanged, and a bare
handle gets `/videos` appended. -/
theorem c8_amended_witness :
    normalize_channel_to_videos "https://youtube.com/@h/videos/"
        = "https://youtube.com/@h/videos/"
    ∧ normalize_channel_to_videos "https://youtube.com/@h"
        = "https://youtube.com/@h/videos" := by
  constructor
  · exact (c8_amended "https://youtube.com/@h/videos/").1 (by decide)
  · exact (c8_amended "https://youtube.com/@h").2.1 (by decide) (by decide) (by decide)

/-! ## Filter evaluator -/

/-- Claim C7: an item is excluded from the dispatched list exactly when
`excludeShorts` is set and the URL contains the shorts marker, or the
include keyword is set and the title misses it (case-insensitive), or the
exclude keyword is set and the title contains it (case-insensitive); the
predicate does not consult the date bounds; and for the queue `[A, B, C]`
with `excludeShorts` and only B's URL containing `/shorts/`, the dispatched
list is `[A, C]` in order. -/
theorem c7_filter :
    (∀ fs qi, excludedByFilter fs qi = true ↔ SpecExcluded fs qi)
    ∧ (∀ fs fs2 : FilterSpec, ∀ qi, fs.excludeShorts = fs2.excludeShorts →
        fs.includeKw = fs2.includeKw → fs.excludeKw = fs2.excludeKw →
        excludedByFilter fs qi = excludedByFilter fs2 qi)
    ∧ dispatchItems specAB [itemA, itemB, itemC] = [itemA, itemC] := by
  refine ⟨?_, ?_, by decide⟩
  · intro fs qi
    have hsh : strLower "/shorts/" = "/shorts/" := rfl
    simp only [excludedByFilter, SpecExcluded, CiContains, pyContains, hsh,
      Bool.or_eq_true, Bool.and_eq_true, decide_eq_true_eq, Bool.not_eq_true',
      Bool.not_eq_true]
    constructor
    · rintro ((⟨h1, h2⟩ | ⟨h1, h2⟩) | ⟨h1, h2⟩)
      · exact Or.inl ⟨h1, h2⟩
      · exact Or.inr (Or.inl ⟨h1, h2⟩)
      · exact Or.inr (Or.inr ⟨h1, h2⟩)
    · rintro (⟨h1, h2⟩ | ⟨h1, h2⟩ | ⟨h1, h2⟩)
      · exact Or.inl (Or.inl ⟨h1, h2⟩)
      · exact Or.inl (Or.inr ⟨h1, h2⟩)
      · exact Or.inr ⟨h1, h2⟩
  · intro fs fs2 qi h1 h2 h3
    simp only [excludedByFilter, h1, h2, h3]

/-- Witness for C7: item B (a shorts URL) is excluded under the
shorts-exclusion spec, both by the code predicate and the spec wording. -/
theorem c7_filter_witness :
    excludedByFilter specAB itemB = true ∧ SpecExcluded specAB itemB :=
  ⟨by decide, (c7_filter.1 specAB itemB).mp (by decide)⟩

/-! ## Queue Store invariants -/

theorem eraseIdx_toFinset {l : List String} :
    ∀ {r : Nat} (h : r < l.length), l.Nodup →
      (l.eraseIdx r).toFinset = l.toFinset.erase (l.get ⟨r, h⟩) := by
  induction l with
  | nil => intro r h; simp at h
  | cons a t ih =>
    intro r h hnd
    rcases List.nodup_cons.mp hnd with ⟨hna, hndt⟩
    rcases r with _ | r
    · have hget0 : (a :: t).get ⟨0, h⟩ = a := rfl
      rw [List.eraseIdx_cons_zero, List.toFinset_cons, hget0,
        Finset.erase_insert (by rw [List.mem_toFinset]; exact hna)]
    · have hr : r < t.length := by simpa using h
      have hget : (a :: t).get ⟨r + 1, h⟩ = t.get ⟨r, hr⟩ := rfl
      have hne : a ≠ t.get ⟨r, hr⟩ := fun hae => hna (hae ▸ List.get_mem t r hr)
      rw [List.eraseIdx_cons_succ, List.toFinset_cons, List.toFinset_cons,
        ih hr hndt, hget, Finset.erase_insert_of_ne hne]

theorem map_eraseIdx (f : QueueItem → String) :
    ∀ (l : List QueueItem) (r : Nat), (l.eraseIdx r).map f = (l.map f).eraseIdx r := by
  intro l
  induction l with
  | nil => intro r; simp
  | cons a t ih =>
    intro r
    rcases r with _ | r
    · simp [List.eraseIdx]
    · simp only [List.eraseIdx_cons_succ, List.map_cons]
      rw [ih]

/-- The new item appended by a non-skipped `mergeOne`. -/
def mergedItem (it : QueueItem) : QueueItem :=
  ⟨normalize_url it.url,
    if it.title = "" then normalize_url it.url else it.title, "Queued"⟩

theorem mergeOne_skip (st : Store) (it : QueueItem)
    (h : normalize_url it.url = "" ∨ normalize_url it.url ∈ st.urlSet) :
    mergeOne st it = st := by
  show (if normalize_url it.url = "" ∨ normalize_url it.url ∈ st.urlSet then st
    else ⟨st.queue ++ [mergedItem it], insert (normalize_url it.url) st.urlSet⟩) = st
  rw [if_pos h]

theorem mergeOne_add (st : Store) (it : QueueItem)
    (h : ¬ (normalize_url it.url = "" ∨ normalize_url it.url ∈ st.urlSet)) :
    mergeOne st it
      = ⟨st.queue ++ [mergedItem it], insert (normalize_url it.url) st.urlSet⟩ := by
  show (if normalize_url it.url = "" ∨ normalize_url it.url ∈ st.urlSet then st
    else ⟨st.queue ++ [mergedItem it], insert (normalize_url it.url) st.urlSet⟩)
    = ⟨st.queue ++ [mergedItem it], insert (normalize_url it.url) st.urlSet⟩
  rw [if_neg h]

theorem mergeOne_inv {st : Store} (it : QueueItem) (h : StoreInv st) :
    StoreInv (mergeOne st it) := by
  by_cases hc : normalize_url it.url = "" ∨ normalize_url it.url ∈ st.urlSet
  · rw [mergeOne_skip st it hc]
    exact h
  · rw [mergeOne_add st it hc]
    push_neg at hc
    obtain ⟨hne, hmem⟩ := hc
    obtain ⟨hset, hnd⟩ := h
    constructor
    · show insert (normalize_url it.url) st.urlSet
        = ((st.queue ++ [mergedItem it]).map QueueItem.url).toFinset
      rw [List.map_append, List.toFinset_append, ← hset]
      show _ = _ ∪ ([(mergedItem it).url].toFinset)
      have hmu : (mergedItem it).url = normalize_url it.url := rfl
      rw [hmu]
      simp [Finset.insert_eq, Finset.union_comm]
    · show ((st.queue ++ [mergedItem it]).map QueueItem.url).Nodup
      rw [List.map_append, List.nodup_append]
      refine ⟨hnd, by simp, ?_⟩
      intro x hx hxu
      simp only [List.map_cons, List.map_nil, List.mem_singleton] at hxu
      have hmu : (mergedItem it).url = normalize_url it.url := rfl
      rw [hmu] at hxu
      subst hxu
      exact hmem (by rw [hset, List.mem_toFinset]; exact hx)

theorem mergeOne_known {st : Store} (it : QueueItem)
    (h : normalize_url it.url ∈ st.urlSet) : mergeOne st it = st :=
  mergeOne_skip st it (Or.inr h)

theorem removeAt_inv {st : Store} (r : Nat) (h : StoreInv st) :
    StoreInv (removeAt st r) := by
  unfold removeAt
  split
  · rename_i hlt
    obtain ⟨hset, hnd⟩ := h
    have hlt2 : r < (st.queue.map QueueItem.url).length := by simpa using hlt
    constructor
    · show st.urlSet.erase (st.queue.get ⟨r, hlt⟩).url
        = ((st.queue.eraseIdx r).map QueueItem.url).toFinset
      rw [map_eraseIdx, eraseIdx_toFinset hlt2 hnd, hset]
      have hg : (st.queue.map QueueItem.url).get ⟨r, hlt2⟩
          = (st.queue.get ⟨r, hlt⟩).url := by
        simp [List.get_map]
      rw [hg]
    · show ((st.queue.eraseIdx r).map QueueItem.url).Nodup
      rw [map_eraseIdx]
      exact List.Nodup.sublist (List.eraseIdx_sublist _ r) hnd
  · exact h

theorem removeRows_inv {st : Store} (rows : List Nat) (h : StoreInv st) :
    StoreInv (removeRows st rows) := by
  unfold removeRows
  generalize rows.reverse = l
  induction l generalizing st with
  | nil => exact h
  | cons r l ih => exact ih (removeAt_inv r h)

theorem mergeOne_urlSet (st : Store) (it : QueueItem) :
    (mergeOne st it).urlSet =
      if normalize_url it.url = "" then st.urlSet
      else insert (normalize_url it.url) st.urlSet := by
  by_cases hc : normalize_url it.url = "" ∨ normalize_url it.url ∈ st.urlSet
  · rw [mergeOne_skip st it hc]
    rcases hc with hc | hc
    · rw [if_pos hc]
    · by_cases he : normalize_url it.url = ""
      · rw [if_pos he]
      · rw [if_neg he]
        exact (Finset.insert_eq_self.mpr hc).symm
  · rw [mergeOne_add st it hc]
    push_neg at hc
    show insert (normalize_url it.url) st.urlSet = _
    rw [if_neg hc.1]

theorem mergeAll_urlSet (l : List QueueItem) (st : Store) :
    (mergeAll st l).urlSet =
      st.urlSet ∪ ((l.map (fun it => normalize_url it.url)).filter
        (fun u => ¬ u = "")).toFinset := by
  induction l generalizing st with
  | nil => simp [mergeAll]
  | cons it l ih =>
    have hstep : mergeAll st (it :: l) = mergeAll (mergeOne st it) l := rfl
    rw [hstep, ih, mergeOne_urlSet]
    by_cases he : normalize_url it.url = ""
    · rw [if_pos he]
      simp [List.filter_cons, he]
    · rw [if_neg he]
      simp only [List.map_cons, List.filter_cons]
      rw [if_pos (by simpa using he)]
      rw [List.toFinset_cons, Finset.union_insert, Finset.insert_union]

theorem mergeAll_inv (l : List QueueItem) :
    ∀ {st : Store}, StoreInv st → StoreInv (mergeAll st l) := by
  induction l with
  | nil => intro st h; exact h
  | cons it l ih =>
    intro st h
    exact ih (mergeOne_inv it h)

theorem emptyStore_inv : StoreInv emptyStore := by decide

/-- Claim C3: the queue store's dedup invariant.  Merging expansion results
(or bulk imports, which funnel through the same loop) preserves the
invariant that the URL set is exactly the set of queued URLs and no two
items share a URL; adding an item whose URL is already known is a no-op;
removal by position preserves the invariant; and the URL set's size after
merging into an empty store equals the number of distinct (normalized,
nonempty) URLs added. -/
theorem c3_queue_dedup :
    (∀ st it, StoreInv st → StoreInv (mergeOne st it))
    ∧ (∀ st it, normalize_url it.url ∈ st.urlSet → mergeOne st it = st)
    ∧ (∀ st rows, StoreInv st → StoreInv (removeRows st rows))
    ∧ (∀ l, StoreInv (mergeAll emptyStore l))
    ∧ (∀ l, (mergeAll emptyStore l).urlSet.card
        = ((l.map (fun it => normalize_url it.url)).filter
            (fun u => ¬ u = "")).toFinset.card) := by
  refine ⟨fun st it h => mergeOne_inv it h,
    fun st it h => mergeOne_known it h,
    fun st rows h => removeRows_inv rows h,
    fun l => mergeAll_inv l emptyStore_inv, ?_⟩
  intro l
  rw [mergeAll_urlSet]
  have he : emptyStore.urlSet = ∅ := rfl
  rw [he, Finset.empty_union]

/-- Witness for C3 at a concrete store: merging `u1` twice and `u2` once
yields an invariant-satisfying store of two URLs, on which re-adding `u1`
is a no-op. -/
theorem c3_queue_dedup_witness :
    StoreInv storeSample
    ∧ mergeOne storeSample ⟨"u1", "zzz", ""⟩ = storeSample
    ∧ storeSample.urlSet.card = 2 := by
  refine ⟨c3_queue_dedup.2.2.2.1 [⟨"u1", "a", ""⟩, ⟨"u1", "b", ""⟩, ⟨"u2", "", ""⟩],
    c3_queue_dedup.2.1 storeSample ⟨"u1", "zzz", ""⟩ (by decide), ?_⟩
  exact (c3_queue_dedup.2.2.2.2
    [⟨"u1", "a", ""⟩, ⟨"u1", "b", ""⟩, ⟨"u2", "", ""⟩]).trans (by decide)

/-! ## Expansion pipeline: the one-shot retry heuristic -/

theorem retryDecision_not_tab {resolve : String → Except String PyInfo}
    {url : String} {entries0 : List Entry}
    (h : ¬ (entries0 ≠ [] ∧ entries0.all looks_like_tab_entry = true)) :
    retryDecision resolve url entries0 = (entries0, 0) := by
  unfold retryDecision
  rw [if_neg h]

theorem retryDecision_same {resolve : String → Except String PyInfo}
    {url : String} {entries0 : List Entry}
    (hc : entries0 ≠ [] ∧ entries0.all looks_like_tab_entry = true)
    (hsame : normalize_channel_to_videos url = url) :
    retryDecision resolve url entries0 = (entries0, 0) := by
  unfold retryDecision
  rw [if_pos hc]
  show (if normalize_channel_to_videos url ≠ url then _ else (entries0, 0))
    = (entries0, 0)
  rw [if_neg (fun hne => hne hsame)]

theorem retryDecision_err {resolve : String → Except String PyInfo}
    {url : String} {entries0 : List Entry} {e : String}
    (hc : entries0 ≠ [] ∧ entries0.all looks_like_tab_entry = true)
    (hne : normalize_channel_to_videos url ≠ url)
    (herr : resolve (normalize_channel_to_videos url) = Except.error e) :
    retryDecision resolve url entries0 = (entries0, 1) := by
  unfold retryDecision
  rw [if_pos hc]
  show (if normalize_channel_to_videos url ≠ url then
      match resolve (normalize_channel_to_videos url) with
      | Except.error _ => (entries0, 1)
      | Except.ok info2 =>
        if surviving info2 ≠ [] ∧ ¬ (surviving info2).all looks_like_tab_entry = true
        then (surviving info2, 1) else (entries0, 1)
    else (entries0, 0)) = (entries0, 1)
  rw [if_pos hne, herr]

theorem retryDecision_ok_keep {resolve : String → Except String PyInfo}
    {url : String} {entries0 : List Entry} {info2 : PyInfo}
    (hc : entries0 ≠ [] ∧ entries0.all looks_like_tab_entry = true)
    (hne : normalize_channel_to_videos url ≠ url)
    (hok : resolve (normalize_channel_to_videos url) = Except.ok info2)
    (hbad : ¬ (surviving info2 ≠ []
      ∧ ¬ (surviving info2).all looks_like_tab_entry = true)) :
    retryDecision resolve url entries0 = (entries0, 1) := by
  unfold retryDecision
  rw [if_pos hc]
  show (if normalize_channel_to_videos url ≠ url then
      match resolve (normalize_channel_to_videos url) with
      | Except.error _ => (entries0, 1)
      | Except.ok info2 =>
        if surviving info2 ≠ [] ∧ ¬ (surviving info2).all looks_like_tab_entry = true
        then (surviving info2, 1) else (entries0, 1)
    else (entries0, 0)) = (entries0, 1)
  rw [if_pos hne, hok]
  show (if surviving info2 ≠ []
      ∧ ¬ (surviving info2).all looks_like_tab_entry = true
    then (surviving info2, 1) else (entries0, 1)) = (entries0, 1)
  rw [if_neg hbad]

theorem retryDecision_ok_replace {resolve : String → Except String PyInfo}
    {url : String} {entries0 : List Entry} {info2 : PyInfo}
    (hc : entries0 ≠ [] ∧ entries0.all looks_like_tab_entry = true)
    (hne : normalize_channel_to_videos url ≠ url)
    (hok : resolve (normalize_channel_to_videos url) = Except.ok info2)
    (hgood : surviving info2 ≠ []
      ∧ ¬ (surviving info2).all looks_like_tab_entry = true) :
    retryDecision resolve url entries0 = (surviving info2, 1) := by
  unfold retryDecision
  rw [if_pos hc]
  show (if normalize_channel_to_videos url ≠ url then
      match resolve (normalize_channel_to_videos url) with
      | Except.error _ => (entries0, 1)
      | Except.ok info2 =>
        if surviving info2 ≠ [] ∧ ¬ (surviving info2).all looks_like_tab_entry = true
        then (surviving info2, 1) else (entries0, 1)
    else (entries0, 0)) = (surviving info2, 1)
  rw [if_pos hne, hok]
  show (if surviving info2 ≠ []
      ∧ ¬ (surviving info2).all looks_like_tab_entry = true
    then (surviving info2, 1) else (entries0, 1)) = (surviving info2, 1)
  rw [if_pos hgood]

theorem retryDecision_congr {resolve resolve2 : String → Except String PyInfo}
    {url : String}
    (h : resolve (normalize_channel_to_videos url)
      = resolve2 (normalize_channel_to_videos url)) (entries0 : List Entry) :
    retryDecision resolve url entries0 = retryDecision resolve2 url entries0 := by
  simp only [retryDecision]
  rw [h]

theorem retryDecision_snd (resolve : String → Except String PyInfo)
    (url : String) (entries0 : List Entry) :
    (retryDecision resolve url entries0).2
      = if entries0 ≠ [] ∧ entries0.all looks_like_tab_entry = true
          ∧ normalize_channel_to_videos url ≠ url then 1 else 0 := by
  by_cases hc : entries0 ≠ [] ∧ entries0.all looks_like_tab_entry = true
  · by_cases hne : normalize_channel_to_videos url ≠ url
    · rcases hr : resolve (normalize_channel_to_videos url) with e | info2
      · rw [retryDecision_err hc hne hr, if_pos ⟨hc.1, hc.2, hne⟩]
      · by_cases hgood : surviving info2 ≠ []
            ∧ ¬ (surviving info2).all looks_like_tab_entry = true
        · rw [retryDecision_ok_replace hc hne hr hgood, if_pos ⟨hc.1, hc.2, hne⟩]
        · rw [retryDecision_ok_keep hc hne hr hgood, if_pos ⟨hc.1, hc.2, hne⟩]
    · rw [retryDecision_same hc (not_not.mp hne), if_neg (fun hx => hne hx.2.2)]
  · rw [retryDecision_not_tab hc, if_neg (fun hx => hc ⟨hx.1, hx.2.1⟩)]

theorem expand_err {resolve : String → Except String PyInfo} {url e : String}
    (h : resolve url = Except.error e) :
    expand resolve url = ⟨false, "분석 실패: " ++ e, [], 0⟩ := by
  unfold expand
  rw [h]

theorem expand_noInfo {resolve : String → Except String PyInfo} {url : String}
    (h : resolve url = Except.ok PyInfo.none) :
    expand resolve url = ⟨false, "정보를 가져오지 못했습니다.", [], 0⟩ := by
  unfold expand
  rw [h]

theorem expand_dict {resolve : String → Except String PyInfo} {url : String}
    {t : Option String} {ents : Option (List (Option Entry))}
    (h : resolve url = Except.ok (PyInfo.dict t ents)) :
    expand resolve url =
      (if (retryDecision resolve url (surviving (PyInfo.dict t ents))).1 ≠ [] then
        ⟨true, "추가 완료(" ++ toString (collectItems
            ((retryDecision resolve url (surviving (PyInfo.dict t ents))).1)).length ++ "개)",
          collectItems ((retryDecision resolve url (surviving (PyInfo.dict t ents))).1),
          (retryDecision resolve url (surviving (PyInfo.dict t ents))).2⟩
      else ⟨true, "추가 완료(1개)", [⟨url, fallbackTitle (PyInfo.dict t ents) url, "Queued"⟩],
          (retryDecision resolve url (surviving (PyInfo.dict t ents))).2⟩) := by
  unfold expand
  rw [h]

theorem expand_retries_dict {resolve : String → Except String PyInfo} {url : String}
    {t : Option String} {ents : Option (List (Option Entry))}
    (h : resolve url = Except.ok (PyInfo.dict t ents)) :
    (expand resolve url).retries
      = (retryDecision resolve url (surviving (PyInfo.dict t ents))).2 := by
  rw [expand_dict h]
  split <;> rfl

theorem expand_items_dict {resolve : String → Except String PyInfo} {url : String}
    {t : Option String} {ents : Option (List (Option Entry))}
    (h : resolve url = Except.ok (PyInfo.dict t ents))
    (hne : (retryDecision resolve url (surviving (PyInfo.dict t ents))).1 ≠ []) :
    (expand resolve url).items
      = collectItems (retryDecision resolve url (surviving (PyInfo.dict t ents))).1 := by
  rw [expand_dict h, if_pos hne]

/-- Claim C1: for every reference whose resolution returns a non-empty
surviving entry list consisting only of listing entries, the expansion
attempts exactly one retry against the content-listing variant (and only
when that variant differs from the original reference); a failed, empty or
all-listing retry keeps the original entry list; a retry with at least one
non-listing entry replaces it; no second retry is ever attempted; and the
expansion consults the resolver only at the original reference and its
content-listing variant. -/
theorem c1_retry_policy (resolve : String → Except String PyInfo) (url : String) :
    (expand resolve url).retries ≤ 1
    ∧ (∀ info, resolve url = Except.ok info →
        ((expand resolve url).retries = 1 ↔
          surviving info ≠ [] ∧ (surviving info).all looks_like_tab_entry = true
            ∧ normalize_channel_to_videos url ≠ url))
    ∧ (∀ info, resolve url = Except.ok info →
        surviving info ≠ [] → (surviving info).all looks_like_tab_entry = true →
        normalize_channel_to_videos url ≠ url →
          (∀ e, resolve (normalize_channel_to_videos url) = Except.error e →
            (expand resolve url).items = collectItems (surviving info))
          ∧ (∀ info2, resolve (normalize_channel_to_videos url) = Except.ok info2 →
              ((surviving info2 = [] ∨ (surviving info2).all looks_like_tab_entry = true) →
                (expand resolve url).items = collectItems (surviving info))
              ∧ (surviving info2 ≠ [] → ¬ (surviving info2).all looks_like_tab_entry = true →
                  (expand resolve url).items = collectItems (surviving info2))))
    ∧ (∀ info, resolve url = Except.ok info →
        surviving info ≠ [] → (surviving info).all looks_like_tab_entry = true →
        normalize_channel_to_videos url = url →
          (expand resolve url).retries = 0
          ∧ (expand resolve url).items = collectItems (surviving info))
    ∧ (∀ resolve2 : String → Except String PyInfo,
        resolve url = resolve2 url →
        resolve (normalize_channel_to_videos url)
          = resolve2 (normalize_channel_to_videos url) →
        expand resolve url = expand resolve2 url) := by
  refine ⟨?_, ?_, ?_, ?_, ?_⟩
  · rcases hr : resolve url with e | info
    · rw [expand_err hr]
      exact Nat.zero_le 1
    · rcases info with _ | ⟨t, ents⟩
      · rw [expand_noInfo hr]
        exact Nat.zero_le 1
      · rw [expand_retries_dict hr, retryDecision_snd]
        split
        · exact le_refl 1
        · exact Nat.zero_le 1
  · intro info hr
    rcases info with _ | ⟨t, ents⟩
    · rw [expand_noInfo hr]
      exact iff_of_false (by simp) (fun hx => hx.1 (by simp [surviving]))
    · rw [expand_retries_dict hr, retryDecision_snd]
      split
      · rename_i hcond
        exact iff_of_true rfl hcond
      · rename_i hcond
        exact iff_of_false (by simp) hcond
  · intro info hr hne0 hall hvar
    rcases info with _ | ⟨t, ents⟩
    · exact absurd hne0 (by simp [surviving])
    · constructor
      · intro e herr
        rw [expand_items_dict hr
          (by rw [retryDecision_err ⟨hne0, hall⟩ hvar herr]; exact hne0),
          retryDecision_err ⟨hne0, hall⟩ hvar herr]
      · intro info2 hok
        constructor
        · intro hbad2
          have hbad : ¬ (surviving info2 ≠ []
              ∧ ¬ (surviving info2).all looks_like_tab_entry = true) := by
            rcases hbad2 with hbad2 | hbad2
            · intro hx
              exact hx.1 hbad2
            · intro hx
              exact hx.2 hbad2
          rw [expand_items_dict hr
            (by rw [retryDecision_ok_keep ⟨hne0, hall⟩ hvar hok hbad]; exact hne0),
            retryDecision_ok_keep ⟨hne0, hall⟩ hvar hok hbad]
        · intro hne2 hnall2
          rw [expand_items_dict hr
            (by rw [retryDecision_ok_replace ⟨hne0, hall⟩ hvar hok ⟨hne2, hnall2⟩]; exact hne2),
            retryDecision_ok_replace ⟨hne0, hall⟩ hvar hok ⟨hne2, hnall2⟩]
  · intro info hr hne0 hall hsame
    rcases info with _ | ⟨t, ents⟩
    · exact absurd hne0 (by simp [surviving])
    · constructor
      · rw [expand_retries_dict hr, retryDecision_same ⟨hne0, hall⟩ hsame]
      · rw [expand_items_dict hr
          (by rw [retryDecision_same ⟨hne0, hall⟩ hsame]; exact hne0),
          retryDecision_same ⟨hne0, hall⟩ hsame]
  · intro resolve2 h1 h2
    rcases hru : resolve2 url with e | info
    · rw [expand_err (h1.trans hru), expand_err hru]
    · rcases info with _ | ⟨t, ents⟩
      · rw [expand_noInfo (h1.trans hru), expand_noInfo hru]
      · rw [expand_dict (h1.trans hru), expand_dict hru, retryDecision_congr h2]

/-- Witness for C1: on the concrete resolver `resolveX` (tab-only listing
for the bare handle, content for the `/videos` variant), the expansion of
the bare handle performs exactly one retry and returns the content item. -/
theorem c1_retry_policy_witness :
    (expand resolveX urlX).retries = 1
    ∧ (expand resolveX urlX).items
        = [⟨"https://y/watch?v=1", "Vid1", "Queued"⟩] := by
  have h := c1_retry_policy resolveX urlX
  constructor
  · exact (h.2.1 (PyInfo.dict Option.none (Option.some [Option.some tabEntryX]))
      rfl).mpr ⟨by decide, by decide, by decide⟩
  · have h3 := (h.2.2.1 (PyInfo.dict Option.none (Option.some [Option.some tabEntryX]))
      rfl (by decide) (by decide) (by decide)).2
      (PyInfo.dict Option.none (Option.some [Option.some vidEntryX])) rfl
    exact (h3.2 (by decide) (by decide)).trans (by decide)

/-! ## Download orchestrator: run-loop lemmas -/

/-- Lemma: `hookRun` written out without `let`s. -/
theorem hookRun_eq (parse : String → Option Int) (done total : Nat) (inp : HookIn) :
    hookRun parse done total inp =
      if inp.stopSeen then []
      else if inp.status = "downloading" then
        (match parse (cleanPercent (inp.percentStr.getD "0%")) with
          | Option.some n => [Ev.fileProgress n]
          | Option.none => [])
        ++ [Ev.fileEta (cleanEta (inp.etaStr.getD "--:--"))]
        ++ (if done > 0 then
              [Ev.totalEta (hms (pyIntTrunc (inp.elapsed / done * (total - done : Nat))))]
            else [Ev.totalEta "계산 중..."])
      else if inp.status = "finished" then [Ev.log "병합 중..."]
      else [] := rfl

theorem hookRun_no_totalProgress (parse : String → Option Int) (done total : Nat)
    (inp : HookIn) (n : Int) : Ev.totalProgress n ∉ hookRun parse done total inp := by
  rw [hookRun_eq]
  split
  · simp
  · split
    · rcases parse (cleanPercent (inp.percentStr.getD "0%")) with _ | m <;>
        dsimp only <;> split <;> simp
    · split <;> simp

theorem hookRun_no_finished (parse : String → Option Int) (done total : Nat)
    (inp : HookIn) (b : Bool) (msg : String) :
    Ev.finished b msg ∉ hookRun parse done total inp := by
  rw [hookRun_eq]
  split
  · simp
  · split
    · rcases parse (cleanPercent (inp.percentStr.getD "0%")) with _ | m <;>
        dsimp only <;> split <;> simp
    · split <;> simp

theorem tpVals_append (a b : List Ev) : tpVals (a ++ b) = tpVals a ++ tpVals b :=
  List.filterMap_append a b _

theorem tpVals_hookRun (parse : String → Option Int) (done total : Nat)
    (inp : HookIn) : tpVals (hookRun parse done total inp) = [] := by
  unfold tpVals
  rw [List.filterMap_eq_nil]
  intro e he
  rcases e <;> try rfl
  exact absurd he (hookRun_no_totalProgress parse done total inp _)

theorem tpVals_hooks_flatten (parse : String → Option Int) (idx total : Nat) :
    ∀ l : List HookIn, tpVals ((l.map (hookRun parse idx total)).flatten) = [] := by
  intro l
  induction l with
  | nil => rfl
  | cons a l ih =>
    simp only [List.map_cons, List.flatten_cons]
    rw [tpVals_append, tpVals_hookRun, ih]
    rfl

theorem tpVals_itemBlock (parse : String → Option Int) (total : Nat)
    (dlFail : Nat → Option String) (hooks : Nat → List HookIn)
    (idx : Nat) (item : QueueItem) :
    tpVals (itemBlock parse total dlFail hooks idx item)
      = [Int.ofNat ((idx + 1) * 100 / total)] := by
  unfold itemBlock
  rw [tpVals_append, tpVals_append, tpVals_append, tpVals_hooks_flatten]
  have h1 : tpVals [Ev.currentTitle (itemTitle item),
      Ev.log ("[" ++ toString (idx + 1) ++ "/" ++ toString total ++ "] " ++ itemTitle item),
      Ev.fileProgress 0, Ev.fileEta "--:--"] = [] := rfl
  have h2 : tpVals (match dlFail idx with
      | Option.some e => [Ev.log ("실패: " ++ itemTitle item ++ " (" ++ e ++ ")")]
      | Option.none => []) = [] := by
    rcases dlFail idx <;> rfl
  rw [h1, h2]
  rfl

theorem tpVals_blocksOf (parse : String → Option Int) (total : Nat)
    (dlFail : Nat → Option String) (hooks : Nat → List HookIn) :
    ∀ (rest : List QueueItem) (idx : Nat),
      tpVals (blocksOf parse total dlFail hooks idx rest)
        = (List.range rest.length).map (fun k => Int.ofNat ((idx + k + 1) * 100 / total)) := by
  intro rest
  induction rest with
  | nil => intro idx; rfl
  | cons item rest ih =>
    intro idx
    show tpVals (itemBlock parse total dlFail hooks idx item
      ++ blocksOf parse total dlFail hooks (idx + 1) rest) = _
    rw [tpVals_append, tpVals_itemBlock, ih (idx + 1)]
    rw [List.length_cons, List.range_succ_eq_map, List.map_cons, List.map_map]
    rw [List.singleton_append]
    refine congrArg (List.cons _) ?_
    refine List.map_congr_left ?_
    intro k _
    have harg : idx + 1 + k + 1 = idx + (k + 1) + 1 := by omega
    rw [harg]
    rfl

theorem itemBlock_no_finished (parse : String → Option Int) (total : Nat)
    (dlFail : Nat → Option String) (hooks : Nat → List HookIn)
    (idx : Nat) (item : QueueItem) (b : Bool) (msg : String) :
    Ev.finished b msg ∉ itemBlock parse total dlFail hooks idx item := by
  unfold itemBlock
  intro hmem
  rw [List.mem_append] at hmem
  rcases hmem with hmem | hmem
  · rw [List.mem_append] at hmem
    rcases hmem with hmem | hmem
    · rw [List.mem_append] at hmem
      rcases hmem with hmem | hmem
      · simp at hmem
      · rw [List.mem_flatten] at hmem
        obtain ⟨l, hl, hmem⟩ := hmem
        rw [List.mem_map] at hl
        obtain ⟨inp, _, hinp⟩ := hl
        exact hookRun_no_finished parse idx total inp b msg (hinp ▸ hmem)
    · rcases hd : dlFail idx with _ | e <;> rw [hd] at hmem <;> simp at hmem
  · simp at hmem

theorem runAux_no_stop (parse : String → Option Int) (total : Nat) (stopAt : Nat → Bool)
    (dlFail : Nat → Option String) (hooks : Nat → List HookIn) :
    ∀ (rest : List QueueItem) (idx : Nat),
      (∀ i, i < rest.length → stopAt (idx + i) = false) →
      runAux parse total stopAt dlFail hooks idx rest
        = ⟨blocksOf parse total dlFail hooks idx rest
            ++ [Ev.fileProgress 100, Ev.totalProgress 100, Ev.totalEta "00:00:00",
              Ev.finished true "완료"],
          rest.map QueueItem.url⟩ := by
  intro rest
  induction rest with
  | nil => intro idx h; rfl
  | cons item rest ih =>
    intro idx h
    have h0 : stopAt idx = false := by simpa using h 0 (by simp)
    simp only [runAux, h0, Bool.false_eq_true, if_false]
    rw [ih (idx + 1) (fun i hi => by
      have hx := h (i + 1) (by simpa using hi)
      rw [show idx + (i + 1) = idx + 1 + i from by omega] at hx
      exact hx)]
    show RunResult.mk (itemBlock parse total dlFail hooks idx item
        ++ (blocksOf parse total dlFail hooks (idx + 1) rest
          ++ [Ev.fileProgress 100, Ev.totalProgress 100, Ev.totalEta "00:00:00",
            Ev.finished true "완료"]))
      (item.url :: rest.map QueueItem.url) = _
    rw [← List.append_assoc]
    rfl

theorem runAux_stop (parse : String → Option Int) (total : Nat) (stopAt : Nat → Bool)
    (dlFail : Nat → Option String) (hooks : Nat → List HookIn) :
    ∀ (j : Nat) (rest : List QueueItem) (idx : Nat), j < rest.length →
      stopAt (idx + j) = true → (∀ i, i < j → stopAt (idx + i) = false) →
      runAux parse total stopAt dlFail hooks idx rest
        = ⟨blocksOf parse total dlFail hooks idx (rest.take j)
            ++ [Ev.finished false "사용자 중지"],
          (rest.take j).map QueueItem.url⟩ := by
  intro j
  induction j with
  | zero =>
    intro rest idx hj hstop hbefore
    rcases rest with _ | ⟨item, rest⟩
    · simp at hj
    · have h0 : stopAt idx = true := hstop
      simp only [runAux, h0, if_true]
      rfl
  | succ j ih =>
    intro rest idx hj hstop hbefore
    rcases rest with _ | ⟨item, rest⟩
    · simp at hj
    · have h0 : stopAt idx = false := by simpa using hbefore 0 (Nat.succ_pos j)
      simp only [runAux, h0, Bool.false_eq_true, if_false]
      rw [ih rest (idx + 1) (by simpa using hj)
        (by rw [show idx + 1 + j = idx + (j + 1) from by omega]; exact hstop)
        (fun i hi => by
          have hx := hbefore (i + 1) (by omega)
          rw [show idx + (i + 1) = idx + 1 + i from by omega] at hx
          exact hx)]
      show RunResult.mk (itemBlock parse total dlFail hooks idx item
          ++ (blocksOf parse total dlFail hooks (idx + 1) (rest.take j)
            ++ [Ev.finished false "사용자 중지"]))
        (item.url :: (rest.take j).map QueueItem.url) = _
      rw [← List.append_assoc]
      rfl

theorem runAux_finished_msgs (parse : String → Option Int) (total : Nat)
    (stopAt : Nat → Bool) (dlFail : Nat → Option String) (hooks : Nat → List HookIn) :
    ∀ (rest : List QueueItem) (idx : Nat) (b : Bool) (msg : String),
      Ev.finished b msg ∈ (runAux parse total stopAt dlFail hooks idx rest).trace →
      (b = true ∧ msg = "완료") ∨ (b = false ∧ msg = "사용자 중지") := by
  intro rest
  induction rest with
  | nil =>
    intro idx b msg hmem
    simp only [runAux] at hmem
    simp at hmem
    exact Or.inl hmem
  | cons item rest ih =>
    intro idx b msg hmem
    simp only [runAux] at hmem
    split at hmem
    · simp at hmem
      exact Or.inr hmem
    · simp only [List.mem_append] at hmem
      rcases hmem with hmem | hmem
      · exact absurd hmem (itemBlock_no_finished parse total dlFail hooks idx item b msg)
      · exact ih (idx + 1) b msg hmem

theorem blocksOf_fail_log (parse : String → Option Int) (total : Nat)
    (dlFail : Nat → Option String) (hooks : Nat → List HookIn) :
    ∀ (l1 : List QueueItem) (item : QueueItem) (l2 : List QueueItem) (idx : Nat)
      (e : String), dlFail (idx + l1.length) = Option.some e →
      Ev.log ("실패: " ++ itemTitle item ++ " (" ++ e ++ ")")
        ∈ blocksOf parse total dlFail hooks idx (l1 ++ item :: l2) := by
  intro l1
  induction l1 with
  | nil =>
    intro item l2 idx e hfail
    rw [show idx + List.length [] = idx from by simp] at hfail
    show _ ∈ itemBlock parse total dlFail hooks idx item
      ++ blocksOf parse total dlFail hooks (idx + 1) l2
    rw [List.mem_append]
    refine Or.inl ?_
    unfold itemBlock
    rw [hfail]
    simp
  | cons a l1 ih =>
    intro item l2 idx e hfail
    show _ ∈ itemBlock parse total dlFail hooks idx a
      ++ blocksOf parse total dlFail hooks (idx + 1) (l1 ++ item :: l2)
    rw [List.mem_append]
    have hlen : idx + (a :: l1).length = idx + 1 + l1.length := by
      simp only [List.length_cons]
      omega
    rw [hlen] at hfail
    exact Or.inr (ih item l2 (idx + 1) e hfail)

/-! ## Claims about the download orchestrator -/

/-- Claim C2, counterexample: with three items and no failures, the
aggregate-progress emissions are `[33, 66, 100, 100]` — after the second
item the code emits `int((2/3)*100) = 66`, while the claimed formula
`round(doneCount / totalCount * 100)` gives `67`.  The code truncates, it
does not round. -/
theorem c2_counterexample :
    tpVals (runWorker parseFail itemsTriple noStop noFail noHooks).trace
      = [33, 66, 100, 100]
    ∧ round ((2 : ℚ) / 3 * 100) = 67 := by
  constructor
  · decide
  · norm_num [round_eq]

/-- Claim C2 (amended): after each completed item (success or failure
alike), the aggregate percentage emitted equals the integer truncation
`int(doneCount / totalCount * 100)` — the floor of the exact ratio — not
its rounding; it is updated exactly once per completed item and never
mid-file (the progress hook never emits the aggregate percentage), and one
final forced emission of 100 follows on normal completion. -/
theorem c2_amended (parse : String → Option Int) (items : List QueueItem)
    (stopAt : Nat → Bool) (dlFail : Nat → Option String) (hooks : Nat → List HookIn)
    (hne : items ≠ []) (hstop : ∀ i, i < items.length → stopAt i = false) :
    tpVals (runWorker parse items stopAt dlFail hooks).trace
      = (List.range items.length).map
          (fun k => Int.ofNat ((k + 1) * 100 / items.length)) ++ [100] := by
  unfold runWorker
  rw [if_neg hne,
    runAux_no_stop parse items.length stopAt dlFail hooks items 0
      (fun i hi => by simpa using hstop i hi)]
  show tpVals (blocksOf parse items.length dlFail hooks 0 items ++ _) = _
  rw [tpVals_append, tpVals_blocksOf]
  have htail : tpVals [Ev.fileProgress 100, Ev.totalProgress 100,
      Ev.totalEta "00:00:00", Ev.finished true "완료"] = [100] := rfl
  rw [htail]
  refine congrArg (fun l => l ++ [(100 : Int)]) (List.map_congr_left ?_)
  intro k _
  rw [show 0 + k + 1 = k + 1 from by omega]

/-- Witness for the amended C2 at a concrete two-item run. -/
theorem c2_amended_witness :
    tpVals (runWorker parseFail itemsPair noStop noFail noHooks).trace
      = (List.range itemsPair.length).map
          (fun k => Int.ofNat ((k + 1) * 100 / itemsPair.length)) ++ [100] :=
  c2_amended parseFail itemsPair noStop noFail noHooks (by decide) (fun i _ => rfl)

/-- Claim C4: the stop flag is consulted only at the top of each per-item
iteration; once observed at iteration `j` the run issues no further
download calls (exactly the first `j` URLs are passed to the engine),
advances the done-count exactly `j` times, and ends by reporting the
user-stop (Cancelled) outcome; in particular if stop is observed before
the `(N/2+1)`-th download is issued, the final done-count is at most
`N/2`. -/
theorem c4_cancellation (parse : String → Option Int) (items : List QueueItem)
    (stopAt : Nat → Bool) (dlFail : Nat → Option String) (hooks : Nat → List HookIn)
    (j : Nat) (hj : j < items.length) (hstop : stopAt j = true)
    (hbefore : ∀ i, i < j → stopAt i = false) :
    (runWorker parse items stopAt dlFail hooks).calls
        = (items.take j).map QueueItem.url
    ∧ (tpVals (runWorker parse items stopAt dlFail hooks).trace).length = j
    ∧ [Ev.finished false "사용자 중지"]
        <:+ (runWorker parse items stopAt dlFail hooks).trace
    ∧ (2 * j ≤ items.length →
        2 * (tpVals (runWorker parse items stopAt dlFail hooks).trace).length
          ≤ items.length) := by
  have hne : items ≠ [] := by
    intro he
    rw [he] at hj
    simp at hj
  have hrun := runAux_stop parse items.length stopAt dlFail hooks j items 0 hj
    (by simpa using hstop) (fun i hi => by simpa using hbefore i hi)
  unfold runWorker
  rw [if_neg hne, hrun]
  have hlen : (tpVals (blocksOf parse items.length dlFail hooks 0 (items.take j)
      ++ [Ev.finished false "사용자 중지"])).length = j := by
    rw [tpVals_append, tpVals_blocksOf]
    have h2 : tpVals [Ev.finished false "사용자 중지"] = [] := rfl
    rw [h2]
    simp only [List.append_nil, List.length_map, List.length_range]
    rw [List.length_take]
    omega
  refine ⟨rfl, hlen, List.suffix_append _ _, fun h2j => ?_⟩
  rw [hlen]
  omega

/-- Witness for C4: stop observed at the top of the second iteration of a
three-item run — only the first URL is downloaded, and the run ends with
the user-stop outcome. -/
theorem c4_cancellation_witness :
    (runWorker parseFail itemsTriple stopFrom1 noFail noHooks).calls = ["u1"]
    ∧ [Ev.finished false "사용자 중지"]
        <:+ (runWorker parseFail itemsTriple stopFrom1 noFail noHooks).trace := by
  have h := c4_cancellation parseFail itemsTriple stopFrom1 noFail noHooks 1
    (by decide) rfl
    (fun i hi => by
      have hz : i = 0 := by omega
      rw [hz]
      rfl)
  exact ⟨h.1.trans (by decide), h.2.2.1⟩

/-- Claim C5: a per-item download failure is caught, logged and skipped —
the run still attempts every item exactly once (no retry) and, absent
cancellation, always ends by reporting successful completion; the
empty-queue failure outcome is reported exactly when the run never started
with an empty item list. -/
theorem c5_error_handling (parse : String → Option Int) (stopAt : Nat → Bool)
    (dlFail : Nat → Option String) (hooks : Nat → List HookIn) :
    (runWorker parse [] stopAt dlFail hooks
        = ⟨[Ev.finished false "대기열이 비어있습니다."], []⟩)
    ∧ (∀ items : List QueueItem, items ≠ [] →
        Ev.finished false "대기열이 비어있습니다."
          ∉ (runWorker parse items stopAt dlFail hooks).trace)
    ∧ (∀ items : List QueueItem, items ≠ [] →
        (∀ i, i < items.length → stopAt i = false) →
        (runWorker parse items stopAt dlFail hooks).calls = items.map QueueItem.url
        ∧ [Ev.finished true "완료"] <:+ (runWorker parse items stopAt dlFail hooks).trace
        ∧ (∀ (l1 : List QueueItem) (item : QueueItem) (l2 : List QueueItem) (e : String),
            items = l1 ++ item :: l2 → dlFail l1.length = Option.some e →
            Ev.log ("실패: " ++ itemTitle item ++ " (" ++ e ++ ")")
              ∈ (runWorker parse items stopAt dlFail hooks).trace)) := by
  refine ⟨rfl, ?_, ?_⟩
  · intro items hne hmem
    unfold runWorker at hmem
    rw [if_neg hne] at hmem
    rcases runAux_finished_msgs parse items.length stopAt dlFail hooks items 0
        false "대기열이 비어있습니다." hmem with ⟨hb, _⟩ | ⟨_, hmsg⟩
    · exact absurd hb (by decide)
    · exact absurd hmsg (by decide)
  · intro items hne hstop
    have hrun := runAux_no_stop parse items.length stopAt dlFail hooks items 0
      (fun i hi => by simpa using hstop i hi)
    unfold runWorker
    rw [if_neg hne, hrun]
    refine ⟨rfl, ?_, ?_⟩
    · have h4 : [Ev.finished true "완료"]
          <:+ [Ev.fileProgress 100, Ev.totalProgress 100, Ev.totalEta "00:00:00",
            Ev.finished true "완료"] := ⟨[Ev.fileProgress 100, Ev.totalProgress 100,
              Ev.totalEta "00:00:00"], rfl⟩
      exact h4.trans (List.suffix_append _ _)
    · intro l1 item l2 e hitems hfail
      show Ev.log ("실패: " ++ itemTitle item ++ " (" ++ e ++ ")")
        ∈ blocksOf parse items.length dlFail hooks 0 items ++ _
      rw [List.mem_append]
      refine Or.inl ?_
      have hmem2 := blocksOf_fail_log parse items.length dlFail hooks l1 item l2 0 e
        (by simpa using hfail)
      rw [← hitems] at hmem2
      exact hmem2

/-- Witness for C5: a two-item run in which every download raises — both
items are attempted, the failure of the first is logged, and the run still
reports completion. -/
theorem c5_error_handling_witness :
    runWorker parseFail [] noStop failBoom noHooks
        = ⟨[Ev.finished false "대기열이 비어있습니다."], []⟩
    ∧ (runWorker parseFail itemsPair noStop failBoom noHooks).calls = ["u1", "u2"]
    ∧ Ev.log ("실패: " ++ itemTitle ⟨"u1", "t1", "Queued"⟩ ++ " (" ++ "boom" ++ ")")
        ∈ (runWorker parseFail itemsPair noStop failBoom noHooks).trace := by
  have h := c5_error_handling parseFail noStop failBoom noHooks
  refine ⟨h.1, ?_, ?_⟩
  · exact (h.2.2 itemsPair (by decide) (fun i _ => rfl)).1.trans (by decide)
  · exact (h.2.2 itemsPair (by decide) (fun i _ => rfl)).2.2 []
      ⟨"u1", "t1", "Queued"⟩ [⟨"u2", "t2", "Queued"⟩] "boom" rfl rfl

/-- Claim C6: on normal completion (all items attempted, no cancellation),
the final emissions are forced: per-file progress 100, aggregate progress
100, aggregate ETA zero, then the success outcome — regardless of what the
last computed per-item values were (any hook payloads, any failures). -/
theorem c6_completion_forcing (parse : String → Option Int) (items : List QueueItem)
    (stopAt : Nat → Bool) (dlFail : Nat → Option String) (hooks : Nat → List HookIn)
    (hne : items ≠ []) (hstop : ∀ i, i < items.length → stopAt i = false) :
    [Ev.fileProgress 100, Ev.totalProgress 100, Ev.totalEta "00:00:00",
      Ev.finished true "완료"]
      <:+ (runWorker parse items stopAt dlFail hooks).trace := by
  unfold runWorker
  rw [if_neg hne,
    runAux_no_stop parse items.length stopAt dlFail hooks items 0
      (fun i hi => by simpa using hstop i hi)]
  exact List.suffix_append _ _

/-- Witness for C6: a run whose downloads all fail still ends with the
forced 100/100/zero-ETA/success suffix. -/
theorem c6_completion_forcing_witness :
    [Ev.fileProgress 100, Ev.totalProgress 100, Ev.totalEta "00:00:00",
      Ev.finished true "완료"]
      <:+ (runWorker parseFail itemsPair noStop failBoom noHooks).trace :=
  c6_completion_forcing parseFail itemsPair noStop failBoom noHooks
    (by decide) (fun i _ => rfl)

/-! ## Claim C10: totality of the progress hook under parse failure -/

/-- Claim C10 (implicit): the progress hook is total — when a
`downloading`-phase payload's percentage string (after ANSI stripping,
percent-sign removal and trimming) does not parse as a number, the failure
is swallowed: no per-file progress value is emitted for that event, while
the per-file ETA string is still emitted (for an active, non-stopped run);
the hook is a total function and never propagates an exception into the
run. -/
theorem c10_hook_parse_failure (parse : String → Option Int) (done total : Nat)
    (inp : HookIn) (hst : inp.status = "downloading")
    (hparse : parse (cleanPercent (inp.percentStr.getD "0%")) = Option.none) :
    (∀ n, Ev.fileProgress n ∉ hookRun parse done total inp)
    ∧ (inp.stopSeen = false →
        Ev.fileEta (cleanEta (inp.etaStr.getD "--:--"))
          ∈ hookRun parse done total inp) := by
  constructor
  · intro n
    rw [hookRun_eq]
    rw [if_pos hst]
    split
    · simp
    · rw [hparse]
      dsimp only
      split <;> simp
  · intro hstop
    rw [hookRun_eq, hstop]
    simp only [Bool.false_eq_true, if_false]
    rw [if_pos hst, hparse]
    dsimp only
    split <;> simp

/-- Witness for C10: a concrete unparsable percentage payload emits no
per-file progress but still emits the ETA string. -/
theorem c10_hook_parse_failure_witness :
    Ev.fileProgress 50 ∉ hookRun parseFail 0 3 hookInX
    ∧ Ev.fileEta (cleanEta (hookInX.etaStr.getD "--:--")) ∈ hookRun parseFail 0 3 hookInX :=
  ⟨(c10_hook_parse_failure parseFail 0 3 hookInX rfl rfl).1 50,
    (c10_hook_parse_failure parseFail 0 3 hookInX rfl rfl).2 rfl⟩

end Gampa
